import Mathlib

/-!
Verification of the biodatareader core: FASTA/SAM parsing, validation and
region-indexed queries. The reader cores (`FastaReader`, `SamReader`) are
consumed by the CLI frontends in `run_fasta_argparse.py`, `run_fasta_click.py`
and `run_sam_cl.py`; the reader implementations themselves are modelled from
the specification, while the CLI rendering layers are embedded directly from
the frontend sources.
-/

namespace BioDataReader

/-- Whitespace characters for stripping, as in Python's `str.strip`. -/
def isWSChar (c : Char) : Bool :=
  c = ' ' || c = '\t' || c = '\r' || c = '\n'

/-- Split a character list on a separator character; models Python's
`str.split(sep)` for a one-character separator (no collapsing of empties). -/
def splitOnCharAux (sep : Char) : List Char → List Char → List String
  | [], acc => [String.mk acc.reverse]
  | c :: rest, acc =>
    if c = sep then String.mk acc.reverse :: splitOnCharAux sep rest []
    else splitOnCharAux sep rest (c :: acc)

/-- Split a string on a separator character. -/
def splitOnChar (sep : Char) (s : String) : List String :=
  splitOnCharAux sep s.toList []

/-- Does the string start with the given character? Models Python's
`str.startswith` for a one-character needle. -/
def firstCharIs (s : String) (c : Char) : Bool :=
  match s.toList with
  | [] => false
  | d :: _ => d = c

/-- Strip leading and trailing whitespace; models Python's `str.strip()`. -/
def stripStr (s : String) : String :=
  String.mk (((s.toList.dropWhile isWSChar).reverse.dropWhile isWSChar).reverse)

/-- Parse a run of decimal digits into a number, `acc` carrying the value of
the digits read so far. -/
def digitsToNatAux : List Char → Nat → Option Nat
  | [], acc => some acc
  | c :: rest, acc =>
    if c.isDigit then digitsToNatAux rest (acc * 10 + (c.toNat - 48)) else none

/-- Parse a non-empty all-digit string into a natural number; models the
parse of the mandatory SAM position field. -/
def strToNat (s : String) : Option Nat :=
  match s.toList with
  | [] => none
  | cs => digitsToNatAux cs 0

/-- Modelled from the spec: the CIGAR mini-language operation codes
`[MIDNSHP=X]` (spec section 6, SAM parser section 4.3). The `SamReader`
implementation is missing from the sources. -/
def cigarOpChars : List Char := ['M', 'I', 'D', 'N', 'S', 'H', 'P', '=', 'X']

/-- Modelled from the spec: operations that consume reference bases are
M, D, N, =, X; not I, S, H, P (spec section 3, AlignmentRecord). -/
def consumesRef (c : Char) : Bool :=
  c = 'M' || c = 'D' || c = 'N' || c = '=' || c = 'X'

/-- Modelled from the spec: CIGAR decoding walks the operation string into
(length, operation-code) pairs; fails on an unrecognized operation code or a
non-numeric (missing) length (spec section 4.3). The accumulator `num` holds
the digits read so far of the current run length. -/
def parseCigarAux (alphabetOps : List Char) :
    List Char → Option Nat → List (Nat × Char) → Option (List (Nat × Char))
  | [], none, acc => some acc.reverse
  | [], some _, _ => none
  | c :: rest, num, acc =>
    if c.isDigit then
      parseCigarAux alphabetOps rest (some (num.getD 0 * 10 + (c.toNat - 48))) acc
    else if alphabetOps.contains c then
      match num with
      | some n => parseCigarAux alphabetOps rest none ((n, c) :: acc)
      | none => none
    else none

/-- Modelled from the spec: parse a raw CIGAR string into (length, op) pairs. -/
def parseCigar (s : String) : Option (List (Nat × Char)) :=
  parseCigarAux cigarOpChars s.toList none []

/-- Modelled from the spec: the reference-consumed span of a CIGAR walk is the
sum of the lengths of the operations that consume reference bases. -/
def refSpan (ops : List (Nat × Char)) : Nat :=
  ((ops.filter (fun p => consumesRef p.2)).map (fun p => p.1)).sum

/-- Modelled from the spec: an alignment record with its derived end position
(spec section 3). `endPos` models the derived `end` field; `mapped` records
whether the record takes part in region queries. -/
structure AlignmentRecord where
  id : String
  chrom : String
  start : Nat
  cigar : String
  endPos : Nat
  mapped : Bool
deriving DecidableEq, Repr

/-- Modelled from the spec: SAM structural errors (spec section 7), each
carrying the line number of the offending line. -/
inductive SamError where
  | malformedRecord (lineNo : Nat)
  | badPosition (lineNo : Nat) (field : String)
  | malformedCigar (lineNo : Nat) (cigar : String)
deriving DecidableEq, Repr

/-- Modelled from the spec: an alignment line is tab-split into the eleven
mandatory SAM fields (query name, flag, reference name, position, mapping
quality, CIGAR, ...); a record with reference name `*` or CIGAR `*` is marked
unmapped and excluded from reference-span computation (spec section 4.3). -/
def parseAlignmentLine (lineNo : Nat) (line : String) : Except SamError AlignmentRecord :=
  let fields := splitOnChar '\t' line
  if fields.length < 11 then .error (.malformedRecord lineNo)
  else
    let qname := fields.getD 0 ""
    let rname := fields.getD 2 ""
    let posField := fields.getD 3 ""
    let cig := fields.getD 5 ""
    match strToNat posField with
    | none => .error (.badPosition lineNo posField)
    | some pos =>
      if rname = "*" || cig = "*" then
        .ok ⟨qname, rname, pos, cig, pos, false⟩
      else
        match parseCigar cig with
        | none => .error (.malformedCigar lineNo cig)
        | some ops => .ok ⟨qname, rname, pos, cig, pos + refSpan ops, true⟩

/-- Modelled from the spec: lines starting with `@` are header lines and are
accumulated; all other lines are parsed as alignment records; malformed lines
fail loudly, they are not skipped (spec section 4.3). -/
def parseSamAux : Nat → List String → List String → List AlignmentRecord →
    Except SamError (List String × List AlignmentRecord)
  | _, [], hdr, recs => .ok (hdr.reverse, recs.reverse)
  | n, l :: ls, hdr, recs =>
    if firstCharIs l '@' then parseSamAux (n + 1) ls (l :: hdr) recs
    else
      match parseAlignmentLine n l with
      | .error e => .error e
      | .ok r => parseSamAux (n + 1) ls hdr (r :: recs)

/-- Modelled from the spec: parse a whole SAM input (its logical lines) into
the header lines and the alignment records, in file order. -/
def parseSamLines (lines : List String) : Except SamError (List String × List AlignmentRecord) :=
  parseSamAux 1 lines [] []

/-- Modelled from the spec: `count_alignments()` is the total number of parsed
alignment records, mapped and unmapped both counting (spec section 4.5). -/
def count_alignments (recs : List AlignmentRecord) : Nat := recs.length

/-- Ordering used to build the Region Index: ascending `start`, ties broken by
the record's original file position (the `Nat` component), i.e. a stable sort
by `start` (spec section 4.4). -/
def keyLe (a b : Nat × AlignmentRecord) : Prop :=
  a.2.start < b.2.start ∨ (a.2.start = b.2.start ∧ a.1 ≤ b.1)

instance : DecidableRel keyLe := fun a b => by
  unfold keyLe; infer_instance

instance : IsTotal (Nat × AlignmentRecord) keyLe :=
  ⟨by intro a b; unfold keyLe; omega⟩

instance : IsTrans (Nat × AlignmentRecord) keyLe :=
  ⟨by intro a b c; unfold keyLe; omega⟩

/-- Tag each record with its position in the file's record order, starting
at `n`. -/
def tagFrom : Nat → List AlignmentRecord → List (Nat × AlignmentRecord)
  | _, [] => []
  | n, r :: rs => (n, r) :: tagFrom (n + 1) rs

/-- Modelled from the spec: the Region Index entry for one chromosome — the
mapped records of that chromosome, in ascending `start` order, ties broken by
original file order (spec sections 3 and 4.4). Unmapped records are excluded. -/
def regionIndex (recs : List AlignmentRecord) (chrom : String) :
    List (Nat × AlignmentRecord) :=
  List.insertionSort keyLe
    ((tagFrom 0 recs).filter (fun p => p.2.mapped && p.2.chrom == chrom))

/-- Modelled from the spec: error for a region query with start above end
(spec section 7). -/
inductive BadRangeError where
  | badRange
deriving DecidableEq, Repr

/-- Modelled from the spec: `filter_by_region(chrom, start, end)` rejects
`start > end` with a `BadRangeError` before any scan; otherwise it scans the
chromosome's sorted index forward while `start ≤ qend`, filtering by
`end ≥ qstart` (1-based inclusive ends), and yields the records in ascending
`start` order (spec sections 4.4 and 6). -/
def filter_by_region (recs : List AlignmentRecord) (chrom : String) (s e : Nat) :
    Except BadRangeError (List AlignmentRecord) :=
  if s > e then .error .badRange
  else
    .ok ((((regionIndex recs chrom).takeWhile (fun p => decide (p.2.start ≤ e))).filter
      (fun p => decide (s ≤ p.2.endPos))).map (fun p => p.2))

/-- Modelled from the spec: a FASTA sequence record — `id` is the header token
before the first whitespace, `description` is the remainder of the header
line, `sequence` is the folded body with newlines stripped (spec section 3).
The `FastaReader` implementation is missing from the sources. -/
structure SequenceRecord where
  id : String
  description : String
  sequence : String
deriving DecidableEq, Repr

/-- Modelled from the spec: FASTA validation failure, naming the record id
and, for an invalid character, the character and its position
(spec sections 4.2 and 7). An empty assembled sequence is invalid. -/
inductive SequenceValidationError where
  | invalidChar (id : String) (c : Char) (pos : Nat)
  | emptySequence (id : String)
deriving DecidableEq, Repr

/-- The id token of a header line: everything after `>` up to the first
space. -/
def headerId (line : String) : String :=
  ((splitOnChar ' ' (String.mk (line.toList.drop 1))).headD "")

/-- The description of a header line: the remainder after the id token. -/
def headerDescr (line : String) : String :=
  String.intercalate " " ((splitOnChar ' ' (String.mk (line.toList.drop 1))).tail)

/-- Modelled from the spec: group scanner lines into raw (header line,
assembled sequence) pairs — a line beginning with `>` starts a new record and
all lines until the next `>` or end of input are concatenated, after
stripping whitespace, into that record's sequence (spec section 4.2). `cur`
is the record being assembled, `acc` the finished records in reverse. -/
def fastaScan : List String → Option (String × String) → List (String × String) →
    List (String × String)
  | [], none, acc => acc.reverse
  | [], some cur, acc => (cur :: acc).reverse
  | l :: ls, cur, acc =>
    if firstCharIs l '>' then
      match cur with
      | none => fastaScan ls (some (l, "")) acc
      | some c => fastaScan ls (some (l, "")) (c :: acc)
    else
      match cur with
      | none => fastaScan ls none acc
      | some (h, sq) => fastaScan ls (some (h, sq ++ stripStr l)) acc

/-- Modelled from the spec: the raw records of a FASTA input; a file with no
`>` line yields zero records (spec section 4.2). -/
def fastaRawRecords (lines : List String) : List (String × String) :=
  fastaScan lines none []

/-- First invalid character of a character list under the permitted-alphabet
profile, with its position (`i` is the position of the list's head). -/
def firstInvalidAux (alphabet : Char → Bool) : List Char → Nat → Option (Nat × Char)
  | [], _ => none
  | c :: cs, i => if alphabet c then firstInvalidAux alphabet cs (i + 1) else some (i, c)

/-- First invalid character of a sequence string under the profile. -/
def firstInvalid (alphabet : Char → Bool) (s : String) : Option (Nat × Char) :=
  firstInvalidAux alphabet s.toList 0

/-- Modelled from the spec: validation of one assembled record — an empty
sequence body is invalid, and the first character outside the permitted
alphabet fails with the record id, the character and its position
(spec section 4.2). -/
def validateRecord (alphabet : Char → Bool) (hdr sq : String) :
    Except SequenceValidationError SequenceRecord :=
  if sq.toList.isEmpty then .error (.emptySequence (headerId hdr))
  else
    match firstInvalid alphabet sq with
    | some (i, c) => .error (.invalidChar (headerId hdr) c i)
    | none => .ok ⟨headerId hdr, headerDescr hdr, sq⟩

/-- Validate the raw records in order; the first failure propagates, records
are not skipped. -/
def validateAll (alphabet : Char → Bool) :
    List (String × String) → Except SequenceValidationError (List SequenceRecord)
  | [] => .ok []
  | (h, sq) :: rest =>
    match validateRecord alphabet h sq with
    | .error e => .error e
    | .ok r =>
      match validateAll alphabet rest with
      | .error e => .error e
      | .ok rs => .ok (r :: rs)

/-- Modelled from the spec: consuming `read()` — parse the lines into records
and validate each; fails with the first `SequenceValidationError`
(spec sections 4.2 and 6). -/
def fastaRead (alphabet : Char → Bool) (lines : List String) :
    Except SequenceValidationError (List SequenceRecord) :=
  validateAll alphabet (fastaRawRecords lines)

/-- Modelled from the spec: `get_seq_score()` is the total record count after
`read()` has been consumed (spec sections 4.5 and 6). -/
def get_seq_score (recs : List SequenceRecord) : Nat := recs.length

/-- Sum of the sequence lengths of the parsed records. -/
def totalSeqLength (recs : List SequenceRecord) : Nat :=
  (recs.map (fun r => r.sequence.toList.length)).sum

/-- Modelled from the spec: `get_mean_seq_length()` — sum of sequence lengths
divided by the count, defined as 0.0 when the count is 0
(spec sections 4.5 and 6). Exact rational arithmetic models the float. -/
def get_mean_seq_length (recs : List SequenceRecord) : Rat :=
  if recs.length = 0 then 0 else (totalSeqLength recs : Rat) / (recs.length : Rat)

/-- Modelled from the spec: a strict-nucleotide permitted-alphabet profile,
case-insensitive nucleotide codes (spec sections 4.2 and 8; the exact set is
a configurable profile, this is the profile used by the concrete witnesses). -/
def strictNucleotide (c : Char) : Bool :=
  c.toUpper = 'A' || c.toUpper = 'C' || c.toUpper = 'G' || c.toUpper = 'T' || c.toUpper = 'N'

/-- A Python value as stored in the dicts the frontends build: the record
count is an int, the mean length a float. -/
inductive PyVal where
  | int (n : Nat)
  | float (q : Rat)
deriving DecidableEq, Repr

/-- Python's `len` on a dict modelled as an association list: the number of
keys. -/
def pyLen (d : List (String × PyVal)) : Nat := d.length

/-- Python's `d[k]` on the dicts built by the frontends (both keys are always
present there, so the default is never hit). -/
def dictGet (d : List (String × PyVal)) (k : String) : PyVal :=
  match d.find? (fun p => p.1 == k) with
  | some p => p.2
  | none => .int 0

/-- Python's `str` of a dict value as interpolated with no format spec. -/
def pyValStr (v : PyVal) : String :=
  match v with
  | .int n => toString n
  | .float q => toString q

/-- The dict built by `handle_stats` (run_fasta_argparse.py) and `stats`
(run_fasta_click.py): keys `count` and `mean_length`. -/
def statsData (count : Nat) (mean : Rat) : List (String × PyVal) :=
  [("count", .int count), ("mean_length", .float mean)]

/-- From run_fasta_argparse.py `output_text`, stats branch: prints the header
line, then `len(data)` as the sequence count, then the mean formatted with
`:.2f` (modelled by the `fmt2` parameter shared by both frontends). -/
def output_text_stats_argparse (fmt2 : PyVal → String)
    (data : List (String × PyVal)) : List String :=
  ["Статистика FASTA-файла:",
   "    Количество последовательностей: " ++ toString (pyLen data),
   "    Средняя длина: " ++ fmt2 (dictGet data "mean_length")]

/-- From run_fasta_click.py `output_text`, stats branch: prints the header
line, then `data['count']`, then the mean formatted with `:.2f`. -/
def output_text_stats_click (fmt2 : PyVal → String)
    (data : List (String × PyVal)) : List String :=
  ["Статистика FASTA-файла:",
   "    Количество последовательностей: " ++ pyValStr (dictGet data "count"),
   "    Средняя длина: " ++ fmt2 (dictGet data "mean_length")]

/-- From run_fasta_argparse.py `output_csv`, stats branch (rows of the CSV
writer). -/
def output_csv_stats_argparse (fmt2 : PyVal → String)
    (data : List (String × PyVal)) : List (List String) :=
  [["Метрика", "Значение"],
   ["Количество последовательностей", pyValStr (dictGet data "count")],
   ["Средняя длина", fmt2 (dictGet data "mean_length")]]

/-- From run_fasta_click.py `output_csv`, stats branch (rows of the CSV
writer). -/
def output_csv_stats_click (fmt2 : PyVal → String)
    (data : List (String × PyVal)) : List (List String) :=
  [["metrics", "value"],
   ["Количество последовательностей", pyValStr (dictGet data "count")],
   ["Средняя длина", fmt2 (dictGet data "mean_length")]]

/-- A row of `sequences_data` as built by `handle_sequences`
(run_fasta_argparse.py) and `sequences` (run_fasta_click.py): keys `id`,
`length`, `sequence`. -/
structure SeqRow where
  id : String
  length : Nat
  sequence : Option String
deriving DecidableEq, Repr

/-- From `handle_sequences` / `sequences` (identical in both frontends): one
row per record, with the raw sequence kept only when the format is json. -/
def buildSequencesData (fmt : String) (records : List SequenceRecord) : List SeqRow :=
  records.map (fun r =>
    ⟨r.id, r.sequence.length, if fmt == "json" then some r.sequence else none⟩)

/-- The `"  " + "-" * 40` separator printed after each sequence. -/
def dashesLine : String := "  " ++ String.mk (List.replicate 40 '-')

/-- From `output_text`, sequences branch (identical in both frontends): the
count line followed by ID, length and separator lines per row. -/
def output_text_sequences (rows : List SeqRow) : List String :=
  ("Найдено последовательностей: " ++ toString rows.length) ::
    (rows.map (fun row =>
      ["    ID: " ++ row.id, "    Длина: " ++ toString row.length, dashesLine])).flatten

/-- From run_fasta_argparse.py `output_csv`, sequences branch. -/
def output_csv_sequences_argparse (rows : List SeqRow) : List (List String) :=
  ["ID", "Длина"] :: rows.map (fun row => [row.id, toString row.length])

/-- From run_fasta_click.py `output_csv`, sequences branch. -/
def output_csv_sequences_click (rows : List SeqRow) : List (List String) :=
  ["ID", "length"] :: rows.map (fun row => [row.id, toString row.length])

example : parseCigar "10M5D3I2N" = some [(10, 'M'), (5, 'D'), (3, 'I'), (2, 'N')] := by decide

example : refSpan [(10, 'M'), (5, 'D'), (3, 'I'), (2, 'N')] = 17 := by decide

example : parseCigar "10Q" = none := by decide

example : parseCigar "10M5" = none := by decide

example :
    parseAlignmentLine 1 "r1\t0\tchr1\t100\t60\t10M5D3I2N\t*\t0\t0\tACGT\tIIII" =
      .ok ⟨"r1", "chr1", 100, "10M5D3I2N", 117, true⟩ := by rfl

example :
    parseAlignmentLine 1 "r2\t4\t*\t0\t0\t*\t*\t0\t0\tACGT\tIIII" =
      .ok ⟨"r2", "*", 0, "*", 0, false⟩ := by rfl

example :
    filter_by_region
      [⟨"a", "chr1", 100, "51M", 150, true⟩, ⟨"b", "chr1", 200, "11M", 210, true⟩]
      "chr1" 140 205 =
      .ok [⟨"a", "chr1", 100, "51M", 150, true⟩, ⟨"b", "chr1", 200, "11M", 210, true⟩] := by rfl

example :
    filter_by_region [⟨"a", "chr1", 100, "51M", 150, true⟩] "chr2" 1 1000 = .ok [] := by rfl

example :
    filter_by_region
      [⟨"x", "chr1", 100, "11M", 110, true⟩, ⟨"y", "chr1", 100, "6M", 105, true⟩,
       ⟨"z", "chr1", 50, "11M", 60, true⟩]
      "chr1" 1 200 =
      .ok [⟨"z", "chr1", 50, "11M", 60, true⟩, ⟨"x", "chr1", 100, "11M", 110, true⟩,
           ⟨"y", "chr1", 100, "6M", 105, true⟩] := by rfl

example :
    filter_by_region [⟨"a", "chr1", 100, "51M", 150, true⟩] "chr1" 200 100 =
      .error .badRange := by rfl

example :
    fastaRead strictNucleotide [">seq1 first record", "ACGT ", "ttA"] =
      .ok [⟨"seq1", "first record", "ACGTttA"⟩] := by rfl

example :
    fastaRead strictNucleotide [">seq1", "ACGTX"] =
      .error (.invalidChar "seq1" 'X' 4) := by rfl

example :
    fastaRead strictNucleotide [">seq1", "", ">seq2", "AC"] =
      .error (.emptySequence "seq1") := by rfl

example : fastaRead strictNucleotide ["ACGT", "junk"] = .ok [] := by rfl

example : totalSeqLength [⟨"a", "", "ACGT"⟩, ⟨"b", "", "ACGTT"⟩] = 9 := by rfl

example : get_mean_seq_length [] = 0 := by decide

/-! ### Helper lemmas -/

theorem keyLe_start_le {a b : Nat × AlignmentRecord} (h : keyLe a b) :
    a.2.start ≤ b.2.start := by
  unfold keyLe at h; omega

theorem not_mapped_not_mem_regionIndex {r : AlignmentRecord} (hr : r.mapped = false)
    (recs : List AlignmentRecord) (chrom : String) (i : Nat) :
    (i, r) ∉ regionIndex recs chrom := by
  intro hmem
  unfold regionIndex at hmem
  rw [List.mem_insertionSort, List.mem_filter] at hmem
  simp [hr] at hmem

theorem parseSamAux_ok_length (ls : List String) :
    ∀ (n : Nat) (hdr : List String) (recs : List AlignmentRecord)
      (hdrOut : List String) (recsOut : List AlignmentRecord),
      parseSamAux n ls hdr recs = .ok (hdrOut, recsOut) →
      recsOut.length = recs.length + (ls.filter (fun l => !(firstCharIs l '@'))).length := by
  induction ls with
  | nil =>
    intro n hdr recs hdrOut recsOut h
    simp only [parseSamAux, Except.ok.injEq, Prod.mk.injEq] at h
    rw [← h.2]
    simp
  | cons l ls ih =>
    intro n hdr recs hdrOut recsOut h
    simp only [parseSamAux] at h
    by_cases hc : firstCharIs l '@'
    · rw [if_pos hc] at h
      have := ih (n + 1) (l :: hdr) recs hdrOut recsOut h
      simp [List.filter_cons, hc, this]
    · rw [if_neg hc] at h
      cases hpl : parseAlignmentLine n l with
      | error e => rw [hpl] at h; cases h
      | ok r =>
        rw [hpl] at h
        have := ih (n + 1) hdr (r :: recs) hdrOut recsOut h
        simp only [List.length_cons] at this
        simp [List.filter_cons, hc, this]
        omega

theorem fastaScan_length (ls : List String) :
    ∀ (cur : Option (String × String)) (acc : List (String × String)),
      (fastaScan ls cur acc).length =
        acc.length + (if cur.isSome then 1 else 0) +
          (ls.filter (fun l => firstCharIs l '>')).length := by
  induction ls with
  | nil =>
    intro cur acc
    cases cur <;> simp [fastaScan]
  | cons l ls ih =>
    intro cur acc
    simp only [fastaScan]
    by_cases hc : firstCharIs l '>'
    · rw [if_pos hc]
      cases cur with
      | none => simp [ih, List.filter_cons, hc]; omega
      | some c => simp [ih, List.filter_cons, hc]; omega
    · rw [if_neg hc]
      cases cur with
      | none => simp [ih, List.filter_cons, hc]
      | some c =>
        obtain ⟨hh, sq⟩ := c
        simp [ih, List.filter_cons, hc]

theorem validateAll_ok_length (alphabet : Char → Bool) :
    ∀ (raw : List (String × String)) (recs : List SequenceRecord),
      validateAll alphabet raw = .ok recs → recs.length = raw.length := by
  intro raw
  induction raw with
  | nil =>
    intro recs h
    simp only [validateAll, Except.ok.injEq] at h
    subst h; rfl
  | cons p rest ih =>
    intro recs h
    obtain ⟨hh, sq⟩ := p
    simp only [validateAll] at h
    cases hv : validateRecord alphabet hh sq with
    | error e => rw [hv] at h; cases h
    | ok r =>
      rw [hv] at h
      cases hrest : validateAll alphabet rest with
      | error e => rw [hrest] at h; cases h
      | ok rs =>
        rw [hrest] at h
        cases h
        simp [ih rs hrest]

theorem validateAll_error_at (alphabet : Char → Bool)
    (hdr sq : String) (e : SequenceValidationError)
    (hx : validateRecord alphabet hdr sq = .error e) (post : List (String × String)) :
    ∀ pre : List (String × String),
      (∀ p ∈ pre, ∃ r, validateRecord alphabet p.1 p.2 = .ok r) →
      validateAll alphabet (pre ++ (hdr, sq) :: post) = .error e := by
  intro pre
  induction pre with
  | nil => intro _; simp [validateAll, hx]
  | cons p ps ih =>
    intro hpre
    obtain ⟨ph, psq⟩ := p
    obtain ⟨r, hr⟩ := hpre (ph, psq) (List.mem_cons_self _ _)
    have ih2 := ih (fun q hq => hpre q (List.mem_cons_of_mem _ hq))
    simp only [List.cons_append, validateAll, hr, List.append_eq, ih2]

theorem takeWhile_eq_filter_sorted (e : Nat) (l : List (Nat × AlignmentRecord)) :
    l.Pairwise keyLe →
      l.takeWhile (fun p => decide (p.2.start ≤ e)) =
        l.filter (fun p => decide (p.2.start ≤ e)) := by
  induction l with
  | nil => intro _; rfl
  | cons a t ih =>
    intro hl
    rw [List.pairwise_cons] at hl
    by_cases hc : a.2.start ≤ e
    · have hd : decide (a.2.start ≤ e) = true := decide_eq_true hc
      simp only [List.takeWhile_cons, List.filter_cons, hd, if_true]
      rw [ih hl.2]
    · have hd : decide (a.2.start ≤ e) = false := decide_eq_false hc
      simp only [List.takeWhile_cons, List.filter_cons, hd, Bool.false_eq_true, if_false]
      symm
      rw [List.filter_eq_nil_iff]
      intro b hb
      have hab := keyLe_start_le (hl.1 b hb)
      simp only [decide_eq_true_eq]
      omega

theorem regionIndex_pairwise (recs : List AlignmentRecord) (chrom : String) :
    (regionIndex recs chrom).Pairwise keyLe :=
  List.sorted_insertionSort keyLe _

theorem tagFrom_mem_getElem (rs : List AlignmentRecord) :
    ∀ (n : Nat) (p : Nat × AlignmentRecord), p ∈ tagFrom n rs →
      n ≤ p.1 ∧ rs[p.1 - n]? = some p.2 := by
  induction rs with
  | nil => intro n p hp; simp [tagFrom] at hp
  | cons r t ih =>
    intro n p hp
    simp only [tagFrom, List.mem_cons] at hp
    rcases hp with rfl | hp
    · exact ⟨Nat.le_refl n, by simp⟩
    · obtain ⟨h1, h2⟩ := ih (n + 1) p hp
      refine ⟨Nat.le_of_succ_le h1, ?_⟩
      have heq : p.1 - n = (p.1 - (n + 1)) + 1 := by omega
      rw [heq, List.getElem?_cons_succ]
      exact h2

theorem tagFrom_pairwise_fst_lt (rs : List AlignmentRecord) :
    ∀ n : Nat, (tagFrom n rs).Pairwise (fun a b => a.1 < b.1) := by
  induction rs with
  | nil => intro n; simp [tagFrom]
  | cons r t ih =>
    intro n
    simp only [tagFrom]
    refine List.Pairwise.cons ?_ (ih (n + 1))
    intro b hb
    have := (tagFrom_mem_getElem t (n + 1) b hb).1
    omega

theorem regionIndex_pairwise_ne (recs : List AlignmentRecord) (chrom : String) :
    (regionIndex recs chrom).Pairwise (fun a b => a.1 ≠ b.1) := by
  have h1 : (tagFrom 0 recs).Pairwise (fun a b => a.1 < b.1) :=
    tagFrom_pairwise_fst_lt recs 0
  have h2 := List.Pairwise.sublist
    (@List.filter_sublist _ (fun q => q.2.mapped && q.2.chrom == chrom) (tagFrom 0 recs)) h1
  have h3 := h2.imp (fun hlt => Nat.ne_of_lt hlt)
  exact ((List.perm_insertionSort keyLe _).pairwise_iff (fun hne => hne.symm)).mpr h3

theorem map_snd_filter_tag (s e : Nat) (chrom : String) (rs : List AlignmentRecord) :
    ∀ n : Nat,
      ((tagFrom n rs).filter (fun a =>
          (decide (s ≤ a.2.endPos) && decide (a.2.start ≤ e)) &&
            (a.2.mapped && a.2.chrom == chrom))).map (fun p => p.2) =
        rs.filter (fun r =>
          (decide (s ≤ r.endPos) && decide (r.start ≤ e)) &&
            (r.mapped && r.chrom == chrom)) := by
  induction rs with
  | nil => intro n; rfl
  | cons r t ih =>
    intro n
    simp only [tagFrom, List.filter_cons]
    by_cases hc :
        ((decide (s ≤ r.endPos) && decide (r.start ≤ e)) &&
          (r.mapped && r.chrom == chrom)) = true
    · simp [hc, ih]
    · simp [hc, ih]

/-! ### Claim theorems -/

/-- C3: for every SAM input, `count_alignments()` returns the number of input
lines that do not start with `@`; mapped and unmapped records both count. -/
theorem count_alignments_eq_nonheader (lines : List String) (hdr : List String)
    (recs : List AlignmentRecord) (h : parseSamLines lines = .ok (hdr, recs)) :
    count_alignments recs = (lines.filter (fun l => !(firstCharIs l '@'))).length := by
  have := parseSamAux_ok_length lines 1 [] [] hdr recs h
  simpa [count_alignments] using this

theorem count_alignments_eq_nonheader_witness :
    parseSamLines ["@HD\tVN:1.6",
        "r1\t0\tchr1\t100\t60\t4M\t*\t0\t0\tACGT\tIIII",
        "r2\t4\t*\t0\t0\t*\t*\t0\t0\tACGT\tIIII"] =
      .ok (["@HD\tVN:1.6"],
        [⟨"r1", "chr1", 100, "4M", 104, true⟩, ⟨"r2", "*", 0, "*", 0, false⟩])
    ∧ count_alignments
        [⟨"r1", "chr1", 100, "4M", 104, true⟩, ⟨"r2", "*", 0, "*", 0, false⟩] =
      ((["@HD\tVN:1.6",
          "r1\t0\tchr1\t100\t60\t4M\t*\t0\t0\tACGT\tIIII",
          "r2\t4\t*\t0\t0\t*\t*\t0\t0\tACGT\tIIII"]).filter
        (fun l => !(firstCharIs l '@'))).length :=
  ⟨by rfl, count_alignments_eq_nonheader _ _ _ (by rfl)⟩

/-- C2: every mapped alignment record parsed from a SAM line has derived end
equal to start plus the reference-consumed span of its CIGAR (operations
M, D, N, =, X; not I, S, H, P), with end ≥ start; records with reference name
`*` or CIGAR `*` are unmapped and excluded from the Region Index. -/
theorem parsed_alignment_end_span (lineNo : Nat) (line : String)
    (r : AlignmentRecord) (h : parseAlignmentLine lineNo line = .ok r) :
    (r.mapped = true →
      ∃ ops, parseCigar r.cigar = some ops ∧
        r.endPos = r.start + refSpan ops ∧ r.start ≤ r.endPos)
    ∧ ((r.chrom = "*" ∨ r.cigar = "*") → r.mapped = false)
    ∧ (r.mapped = false → ∀ recs chromQ i, (i, r) ∉ regionIndex recs chromQ) := by
  simp only [parseAlignmentLine] at h
  split at h
  · cases h
  · split at h
    · cases h
    · split at h
      · cases h
        refine ⟨(by intro hm; cases hm), fun _ => rfl, ?_⟩
        intro _ recs chromQ i
        exact not_mapped_not_mem_regionIndex rfl recs chromQ i
      · split at h
        · cases h
        · cases h
          next hnot _ _ hops =>
          refine ⟨?_, ?_, ?_⟩
          · intro _
            exact ⟨_, hops, rfl, Nat.le_add_right _ _⟩
          · intro hor
            exfalso
            simp only [Bool.or_eq_true, decide_eq_true_eq, not_or] at hnot
            rcases hor with h1 | h1
            · exact hnot.1 h1
            · exact hnot.2 h1
          · intro hf
            cases hf

theorem parsed_alignment_end_span_witness :
    parseAlignmentLine 1 "r1\t0\tchr1\t100\t60\t10M5D3I2N\t*\t0\t0\tACGT\tIIII" =
      .ok ⟨"r1", "chr1", 100, "10M5D3I2N", 117, true⟩
    ∧ ∃ ops, parseCigar "10M5D3I2N" = some ops ∧ 117 = 100 + refSpan ops ∧ 100 ≤ 117 :=
  ⟨by rfl,
    (parsed_alignment_end_span 1 "r1\t0\tchr1\t100\t60\t10M5D3I2N\t*\t0\t0\tACGT\tIIII"
      ⟨"r1", "chr1", 100, "10M5D3I2N", 117, true⟩ (by rfl)).1 rfl⟩

/-- C1: for every SAM input and every query with s ≤ e,
`filter_by_region(chrom, s, e)` succeeds (never errors, in particular for an
unknown chromosome or an empty overlap) and returns exactly the records —
as a multiset — whose chrom matches and whose 1-based inclusive interval
[start, end] overlaps [s, e], i.e. start ≤ e and end ≥ s, among the mapped
records. -/
theorem filter_by_region_exact (recs : List AlignmentRecord) (chrom : String)
    (s e : Nat) (h : s ≤ e) :
    ∃ out, filter_by_region recs chrom s e = .ok out ∧
      out.Perm (recs.filter (fun r =>
        r.mapped && (r.chrom == chrom) && decide (r.start ≤ e) && decide (s ≤ r.endPos))) := by
  refine ⟨(((regionIndex recs chrom).takeWhile
      (fun p => decide (p.2.start ≤ e))).filter
        (fun p => decide (s ≤ p.2.endPos))).map (fun p => p.2), ?_, ?_⟩
  · unfold filter_by_region
    rw [if_neg (Nat.not_lt.mpr h)]
  · rw [takeWhile_eq_filter_sorted e _ (regionIndex_pairwise recs chrom)]
    simp only [List.filter_filter]
    refine List.Perm.trans
      (List.Perm.map _ (List.Perm.filter _ (List.perm_insertionSort keyLe _))) ?_
    simp only [List.filter_filter]
    rw [map_snd_filter_tag s e chrom recs 0]
    have hpt : ∀ a ∈ recs,
        ((decide (s ≤ a.endPos) && decide (a.start ≤ e)) &&
          (a.mapped && a.chrom == chrom)) =
        (a.mapped && (a.chrom == chrom) && decide (a.start ≤ e) && decide (s ≤ a.endPos)) := by
      intro a _
      cases hm : a.mapped <;> cases hc : (a.chrom == chrom) <;>
        cases h1 : decide (a.start ≤ e) <;> cases h2 : decide (s ≤ a.endPos) <;> rfl
    rw [List.filter_congr hpt]

theorem filter_by_region_exact_witness :
    140 ≤ 205 ∧
      ∃ out,
        filter_by_region
          [⟨"a", "chr1", 100, "51M", 150, true⟩, ⟨"b", "chr1", 200, "11M", 210, true⟩]
          "chr1" 140 205 = .ok out ∧
        out.Perm
          (([⟨"a", "chr1", 100, "51M", 150, true⟩,
             ⟨"b", "chr1", 200, "11M", 210, true⟩] : List AlignmentRecord).filter
            (fun r => r.mapped && (r.chrom == "chr1") &&
              decide (r.start ≤ 205) && decide (140 ≤ r.endPos))) :=
  ⟨by decide,
    filter_by_region_exact
      [⟨"a", "chr1", 100, "51M", 150, true⟩, ⟨"b", "chr1", 200, "11M", 210, true⟩]
      "chr1" 140 205 (by decide)⟩

/-- C7: for every valid region query the result sequence of
`filter_by_region` is ascending in `start`, with ties between equal starts
kept in original file order: the result is the projection of an indexed list
whose indices are true file positions and which is strictly increasing in the
lexicographic (start, file position) order. -/
theorem filter_by_region_sorted_stable (recs : List AlignmentRecord)
    (chrom : String) (s e : Nat) (h : s ≤ e) :
    ∃ outIdx : List (Nat × AlignmentRecord),
      filter_by_region recs chrom s e = .ok (outIdx.map (fun p => p.2))
      ∧ outIdx.Pairwise (fun a b =>
          a.2.start < b.2.start ∨ (a.2.start = b.2.start ∧ a.1 < b.1))
      ∧ ∀ p ∈ outIdx, recs[p.1]? = some p.2 := by
  refine ⟨((regionIndex recs chrom).takeWhile
      (fun p => decide (p.2.start ≤ e))).filter (fun p => decide (s ≤ p.2.endPos)),
    ?_, ?_, ?_⟩
  · unfold filter_by_region
    rw [if_neg (Nat.not_lt.mpr h)]
  · have hkey := regionIndex_pairwise recs chrom
    have hne := regionIndex_pairwise_ne recs chrom
    have hstrict : (regionIndex recs chrom).Pairwise (fun a b =>
        a.2.start < b.2.start ∨ (a.2.start = b.2.start ∧ a.1 < b.1)) := by
      refine (hkey.and hne).imp ?_
      intro a b hab
      obtain ⟨hk, hne2⟩ := hab
      unfold keyLe at hk
      omega
    exact List.Pairwise.sublist
      (List.Sublist.trans (List.filter_sublist _) (List.takeWhile_sublist _)) hstrict
  · intro p hp
    have hsub : (((regionIndex recs chrom).takeWhile
        (fun p => decide (p.2.start ≤ e))).filter
          (fun p => decide (s ≤ p.2.endPos))).Sublist (regionIndex recs chrom) :=
      List.Sublist.trans (List.filter_sublist _) (List.takeWhile_sublist _)
    have hp1 : p ∈ regionIndex recs chrom := hsub.subset hp
    have hp2 : p ∈ (tagFrom 0 recs).filter
        (fun q => q.2.mapped && q.2.chrom == chrom) :=
      (List.perm_insertionSort keyLe _).mem_iff.mp hp1
    have hp3 : p ∈ tagFrom 0 recs := (List.mem_filter.mp hp2).1
    have hmem := tagFrom_mem_getElem recs 0 p hp3
    simpa using hmem.2

theorem filter_by_region_sorted_stable_witness :
    1 ≤ 200 ∧
      ∃ outIdx : List (Nat × AlignmentRecord),
        filter_by_region
          [⟨"x", "chr1", 100, "11M", 110, true⟩, ⟨"y", "chr1", 100, "6M", 105, true⟩,
           ⟨"z", "chr1", 50, "11M", 60, true⟩]
          "chr1" 1 200 = .ok (outIdx.map (fun p => p.2))
        ∧ outIdx.Pairwise (fun a b =>
            a.2.start < b.2.start ∨ (a.2.start = b.2.start ∧ a.1 < b.1))
        ∧ ∀ p ∈ outIdx,
            ([⟨"x", "chr1", 100, "11M", 110, true⟩, ⟨"y", "chr1", 100, "6M", 105, true⟩,
              ⟨"z", "chr1", 50, "11M", 60, true⟩] : List AlignmentRecord)[p.1]? = some p.2 :=
  ⟨by decide,
    filter_by_region_sorted_stable
      [⟨"x", "chr1", 100, "11M", 110, true⟩, ⟨"y", "chr1", 100, "6M", 105, true⟩,
       ⟨"z", "chr1", 50, "11M", 60, true⟩]
      "chr1" 1 200 (by decide)⟩

/-- C8: a region query with start above end is rejected with `BadRangeError`
before any scan of the alignments; the reader (a pure value here) is
unchanged. -/
theorem filter_by_region_rejects_bad_range (recs : List AlignmentRecord)
    (chrom : String) (s e : Nat) (h : s > e) :
    filter_by_region recs chrom s e = .error .badRange := by
  unfold filter_by_region
  rw [if_pos h]

theorem filter_by_region_rejects_bad_range_witness :
    200 > 100 ∧
      filter_by_region [⟨"a", "chr1", 100, "51M", 150, true⟩] "chr1" 200 100 =
        .error .badRange :=
  ⟨by decide,
    filter_by_region_rejects_bad_range [⟨"a", "chr1", 100, "51M", 150, true⟩]
      "chr1" 200 100 (by decide)⟩

/-- C9: the claim that both FASTA frontends render identical stats results
fails in the code — the argparse `output_text` prints `len(data)`, the key
count of the dict (always 2), where the click `output_text` prints
`data['count']`; at record count 1 the rendered lines differ. -/
theorem stats_text_renderers_diverge :
    output_text_stats_argparse (fun _ => "1.00") (statsData 1 1) =
      ["Статистика FASTA-файла:",
       "    Количество последовательностей: 2",
       "    Средняя длина: 1.00"]
    ∧ output_text_stats_click (fun _ => "1.00") (statsData 1 1) =
      ["Статистика FASTA-файла:",
       "    Количество последовательностей: 1",
       "    Средняя длина: 1.00"]
    ∧ output_text_stats_argparse (fun _ => "1.00") (statsData 1 1) ≠
        output_text_stats_click (fun _ => "1.00") (statsData 1 1) :=
  ⟨by rfl, by rfl, by decide⟩

/-- C10: for the sequences command in text or csv format, the output depends
on each record's sequence only through its length — records with identical
ids and sequence lengths render identically — and the raw sequence string is
placed in the emitted rows only for the json format (otherwise the
`sequence` field is `None`). -/
theorem sequences_output_content_independent (fmt : String)
    (rs1 rs2 : List SequenceRecord) (hfmt : fmt = "text" ∨ fmt = "csv")
    (hlen : rs1.map (fun r => (r.id, r.sequence.length)) =
      rs2.map (fun r => (r.id, r.sequence.length))) :
    buildSequencesData fmt rs1 = buildSequencesData fmt rs2
    ∧ output_text_sequences (buildSequencesData fmt rs1) =
        output_text_sequences (buildSequencesData fmt rs2)
    ∧ output_csv_sequences_argparse (buildSequencesData fmt rs1) =
        output_csv_sequences_argparse (buildSequencesData fmt rs2)
    ∧ output_csv_sequences_click (buildSequencesData fmt rs1) =
        output_csv_sequences_click (buildSequencesData fmt rs2)
    ∧ (∀ row ∈ buildSequencesData fmt rs1, row.sequence = none)
    ∧ (∀ rs : List SequenceRecord, buildSequencesData "json" rs =
        rs.map (fun r => ⟨r.id, r.sequence.length, some r.sequence⟩)) := by
  have hnj : (fmt == "json") = false := by
    rcases hfmt with h | h <;> subst h <;> rfl
  have key : ∀ rs : List SequenceRecord, buildSequencesData fmt rs =
      (rs.map (fun r => (r.id, r.sequence.length))).map
        (fun p => ⟨p.1, p.2, none⟩) := by
    intro rs
    simp only [buildSequencesData, hnj, Bool.false_eq_true, if_false, List.map_map]
    rfl
  have hbuild : buildSequencesData fmt rs1 = buildSequencesData fmt rs2 := by
    rw [key, key, hlen]
  refine ⟨hbuild, by rw [hbuild], by rw [hbuild], by rw [hbuild], ?_, ?_⟩
  · intro row hrow
    rw [key] at hrow
    rcases List.mem_map.mp hrow with ⟨p, _, rfl⟩
    rfl
  · intro rs
    simp [buildSequencesData]

/-- C5: for every valid FASTA input, after `read()` has been consumed,
`get_seq_score()` returns the number of `>`-header lines of the file, which
is the number of parsed records. -/
theorem seq_score_eq_header_count (alphabet : Char → Bool) (lines : List String)
    (recs : List SequenceRecord) (h : fastaRead alphabet lines = .ok recs) :
    get_seq_score recs = (lines.filter (fun l => firstCharIs l '>')).length := by
  unfold fastaRead fastaRawRecords at h
  have h1 := validateAll_ok_length alphabet _ _ h
  have h2 := fastaScan_length lines none []
  simp at h2
  unfold get_seq_score
  omega

theorem seq_score_eq_header_count_witness :
    fastaRead strictNucleotide [">a", "ACGT", ">b", "TT"] =
      .ok [⟨"a", "", "ACGT"⟩, ⟨"b", "", "TT"⟩]
    ∧ get_seq_score [⟨"a", "", "ACGT"⟩, ⟨"b", "", "TT"⟩] =
      (([">a", "ACGT", ">b", "TT"]).filter (fun l => firstCharIs l '>')).length :=
  ⟨by rfl, seq_score_eq_header_count strictNucleotide _ _ (by rfl)⟩

/-- C6: for every valid FASTA input, `get_mean_seq_length()` is the
arithmetic mean of the sequence lengths of the parsed records — it satisfies
mean times count = sum of lengths when the count is nonzero — and is exactly
0.0 when the record count is zero. -/
theorem mean_seq_length_spec (alphabet : Char → Bool) (lines : List String)
    (recs : List SequenceRecord) (_h : fastaRead alphabet lines = .ok recs) :
    (recs.length = 0 → get_mean_seq_length recs = 0)
    ∧ (recs.length ≠ 0 →
        get_mean_seq_length recs * (recs.length : Rat) = (totalSeqLength recs : Rat)) := by
  constructor
  · intro h0
    unfold get_mean_seq_length
    rw [if_pos h0]
  · intro h0
    unfold get_mean_seq_length
    rw [if_neg h0]
    have hne : ((recs.length : Nat) : Rat) ≠ 0 := by
      exact_mod_cast h0
    exact div_mul_cancel₀ _ hne

theorem mean_seq_length_spec_witness :
    fastaRead strictNucleotide [">a", "ACGT", ">b", "ACGTT"] =
      .ok [⟨"a", "", "ACGT"⟩, ⟨"b", "", "ACGTT"⟩]
    ∧ get_mean_seq_length [⟨"a", "", "ACGT"⟩, ⟨"b", "", "ACGTT"⟩] *
        ((([⟨"a", "", "ACGT"⟩, ⟨"b", "", "ACGTT"⟩] : List SequenceRecord).length : Nat) : Rat) =
      ((totalSeqLength [⟨"a", "", "ACGT"⟩, ⟨"b", "", "ACGTT"⟩] : Nat) : Rat) :=
  ⟨by rfl,
    (mean_seq_length_spec strictNucleotide [">a", "ACGT", ">b", "ACGTT"] _ (by rfl)).2
      (by decide)⟩

/-- C4: a FASTA input whose first offending record contains a character
outside the permitted alphabet fails, on consuming `read()`, with a
`SequenceValidationError` naming that record's id and the offending character
at its first occurrence; an empty sequence body after a header likewise fails
with a `SequenceValidationError` naming the record's id. The error
propagates — the record is not skipped. -/
theorem fasta_read_validation_error (alphabet : Char → Bool) (lines : List String)
    (pre post : List (String × String)) (hdr sq : String)
    (hsplit : fastaRawRecords lines = pre ++ (hdr, sq) :: post)
    (hpre : ∀ p ∈ pre, ∃ r, validateRecord alphabet p.1 p.2 = .ok r) :
    (∀ i c, firstInvalid alphabet sq = some (i, c) →
      fastaRead alphabet lines = .error (.invalidChar (headerId hdr) c i))
    ∧ (sq = "" → fastaRead alphabet lines = .error (.emptySequence (headerId hdr))) := by
  constructor
  · intro i c hfi
    have hne : sq.toList.isEmpty = false := by
      cases hsq : sq.toList with
      | nil =>
        rw [firstInvalid, hsq] at hfi
        simp [firstInvalidAux] at hfi
      | cons a t => simp [hsq]
    have hx : validateRecord alphabet hdr sq =
        .error (.invalidChar (headerId hdr) c i) := by
      simp only [validateRecord, hne, Bool.false_eq_true, if_false, hfi]
    unfold fastaRead
    rw [hsplit]
    exact validateAll_error_at alphabet hdr sq _ hx post pre hpre
  · intro hsq
    subst hsq
    have hx : validateRecord alphabet hdr "" =
        .error (.emptySequence (headerId hdr)) := rfl
    unfold fastaRead
    rw [hsplit]
    exact validateAll_error_at alphabet hdr "" _ hx post pre hpre

theorem fasta_read_validation_error_witness :
    fastaRawRecords [">ok record", "ACGT", ">seq1", "ACGTX"] =
      [(">ok record", "ACGT")] ++ (">seq1", "ACGTX") :: []
    ∧ firstInvalid strictNucleotide "ACGTX" = some (4, 'X')
    ∧ fastaRead strictNucleotide [">ok record", "ACGT", ">seq1", "ACGTX"] =
        .error (.invalidChar "seq1" 'X' 4) :=
  ⟨by rfl, by rfl,
    (fasta_read_validation_error strictNucleotide
        [">ok record", "ACGT", ">seq1", "ACGTX"]
        [(">ok record", "ACGT")] [] ">seq1" "ACGTX" (by rfl)
        (by intro p hp
            simp only [List.mem_singleton] at hp
            subst hp
            exact ⟨⟨"ok", "record", "ACGT"⟩, rfl⟩)).1 4 'X' (by rfl)⟩

theorem sequences_output_content_independent_witness :
    ("text" = "text" ∨ "text" = "csv")
    ∧ ([⟨"a", "", "ACGT"⟩] : List SequenceRecord).map
        (fun r => (r.id, r.sequence.length)) =
      ([⟨"a", "", "TTTT"⟩] : List SequenceRecord).map
        (fun r => (r.id, r.sequence.length))
    ∧ output_text_sequences (buildSequencesData "text" [⟨"a", "", "ACGT"⟩]) =
        output_text_sequences (buildSequencesData "text" [⟨"a", "", "TTTT"⟩]) :=
  ⟨Or.inl rfl, by rfl,
    (sequences_output_content_independent "text" [⟨"a", "", "ACGT"⟩]
      [⟨"a", "", "TTTT"⟩] (Or.inl rfl) (by rfl)).2.1⟩

end BioDataReader
